import Mathlib

/-!
Verification of the `implementation` package (`async_slice.go`): a set of
parallel operations (`All`, `Any`, `Each`, `Filter`, `Map`, `Reduce`) over a
slice, with a bounded worker pool.

Modelling notes.  The Go code fans index-jobs out to `workers` goroutines; the
observable result of each operation (for a pure user function) is independent
of the interleaving, because

  * `All`/`Any` return a boolean that only depends on which dispatched index
    makes the predicate false/true (jobs are submitted in ascending order and
    the job source is drained unless a deciding answer is found first);
  * `Map`/`Filter` pre-size their output and each worker writes only at its
    own index, so the final output is a pure function of the input;
  * `Each` invokes the user function exactly once per index;
  * `Reduce` collects a round's pair results from a channel; we determinise
    the collection order to the job submission order (the order produced by a
    single worker).

So each operation is embedded as the deterministic function of the input that
the Go code computes, with the element type's Go zero value modelled by an
`Inhabited` instance, and slices modelled by `List`.  The worker count enters
each operation through the same clamping computation as in the source, and the
embedded results do not depend on it, matching the source's determinism per
worker count for pure user functions.
-/

namespace Genesis

/-- Embeds the Go struct `AsyncSlice`: a slice `data` of elements of type `T`
together with a configured worker count.  The spec's data model declares the
worker count to be "a single non-negative integer", so it is a `Nat`. -/
structure AsyncSlice (T : Type) where
  data : List T
  workers : Nat

/-- The pool-size computation every operation performs
(`workers := s.workers; if workers == 0 || workers > n { workers = n }`,
with `n` the length of the slice, or of the current working state in
`Reduce`). -/
def clampWorkers (w n : Nat) : Nat :=
  if w = 0 || n < w then n else w

variable {T G : Type}

/-- The job loop of the `All` worker (lines 22-38 of the source): consume job
indices; on the first element where `f` is false, publish `false` (the main
loop then returns `false`); if the job source drains, the main loop returns
`true`. -/
def allJobs [Inhabited T] (data : List T) (f : T → Bool) : List Nat → Bool
  | [] => true
  | i :: rest => if !(f (data.getD i default)) then false else allJobs data f rest

/-- `All` (source lines 15-74): `true` on the empty slice with no dispatch;
otherwise clamp the pool size and process job indices `0..n-1`. -/
def AsyncSlice.All [Inhabited T] (s : AsyncSlice T) (f : T → Bool) : Bool :=
  if s.data.length = 0 then true
  else
    let _w := clampWorkers s.workers s.data.length
    allJobs s.data f (List.range s.data.length)

/-- The job loop of the `Any` worker (lines 84-100 of the source): on the
first element where `f` is true, publish `true`; if the job source drains,
the main loop returns `false`. -/
def anyJobs [Inhabited T] (data : List T) (f : T → Bool) : List Nat → Bool
  | [] => false
  | i :: rest => if f (data.getD i default) then true else anyJobs data f rest

/-- `Any` (source lines 77-136): `false` on the empty slice with no dispatch;
otherwise clamp the pool size and process job indices `0..n-1`. -/
def AsyncSlice.Any [Inhabited T] (s : AsyncSlice T) (f : T → Bool) : Bool :=
  if s.data.length = 0 then false
  else
    let _w := clampWorkers s.workers s.data.length
    anyJobs s.data f (List.range s.data.length)

/-- `Each` (source lines 139-168): applies `f` to every element, one call per
dispatched index.  Its observable behaviour is the sequence of elements the
user function is invoked on; jobs are submitted in ascending index order. -/
def AsyncSlice.Each [Inhabited T] (s : AsyncSlice T) : List T :=
  let _w := clampWorkers s.workers s.data.length
  (List.range s.data.length).map (fun i => s.data.getD i default)

/-- `Filter` (source lines 171-212): workers set `resultMap[index] = true`
for each dispatched index whose element satisfies `f` (the mask starts as
`make([]bool, n)`, all `false`); then a single-threaded compaction pass walks
indices in order and appends the kept elements. -/
def AsyncSlice.Filter [Inhabited T] (s : AsyncSlice T) (f : T → Bool) : List T :=
  let n := s.data.length
  let _w := clampWorkers s.workers n
  let resultMap := (List.range n).foldl
    (fun acc i => if f (s.data.getD i default) then acc.set i true else acc)
    (List.replicate n false)
  (List.range n).foldl
    (fun acc i => if resultMap.getD i false then acc ++ [s.data.getD i default] else acc)
    []

/-- `Map` (source lines 215-246): the output is pre-sized to `n`
(`make([]G, n)`, zero-filled) and each dispatched index `i` gets
`result[i] = f(data[i])`. -/
def AsyncSlice.Map [Inhabited T] [Inhabited G] (s : AsyncSlice T) (f : T → G) : List G :=
  let n := s.data.length
  let _w := clampWorkers s.workers n
  (List.range n).foldl
    (fun acc i => acc.set i (f (s.data.getD i default)))
    (List.replicate n (default : G))

/-- One round of `Reduce` (the body of the `for len(state) > 1` loop, source
lines 266-302): the pool size is clamped against the current state length;
jobs are the indices `0, 2, 4, ...` strictly below `len(state)-1`, job `i`
computing `f(state[i], state[i+1])`; the new state is the pair results in job
order followed by the carried last element when the length is odd. -/
def reduceRound [Inhabited T] (w : Nat) (f : T → T → T) (state : List T) : List T :=
  let _wk := clampWorkers w state.length
  let results := (List.range (state.length / 2)).map
    (fun j => f (state.getD (2 * j) default) (state.getD (2 * j + 1) default))
  if state.length % 2 = 1 then results ++ [state.getD (state.length - 1) default]
  else results

/-- The `for len(state) > 1` loop of `Reduce`, with explicit fuel.  Each round
strictly shrinks a state of length `> 1`, so fuel equal to the initial state
length is enough for the loop to reach a fixed point (proved in
`reduceLoop_length_one`); the fuel is only a termination device. -/
def reduceLoop [Inhabited T] (w : Nat) (f : T → T → T) : Nat → List T → List T
  | 0, state => state
  | fuel + 1, state =>
    if state.length > 1 then reduceLoop w f fuel (reduceRound w f state) else state

/-- `Reduce` (source lines 249-305): the zero value on the empty slice with no
dispatch; otherwise the initial working state is
`state := make([]T, len(s.data))` followed by `state = append(state, s.data...)`,
i.e. `len(s.data)` zero values followed by the data (the `make` zero-fills and
`append` extends), after which rounds run until one element remains, which is
returned. -/
def AsyncSlice.Reduce [Inhabited T] (s : AsyncSlice T) (f : T → T → T) : T :=
  if s.data.length = 0 then default
  else
    let state := List.replicate s.data.length (default : T) ++ s.data
    (reduceLoop s.workers f state.length state).getD 0 default

/-- The pool size the first `Reduce` round computes (source lines 268-271):
`s.workers` clamped against the length of the current working state — which,
because of the `make([]T, len)` + `append` slip at lines 255-256, is
`2 * len(s.data)` in round 1, not `len(s.data)`. -/
def reducePoolSize [Inhabited T] (s : AsyncSlice T) : Nat :=
  clampWorkers s.workers (List.replicate s.data.length (default : T) ++ s.data).length

/-! ### Helper lemmas -/

/-- Setting the position right after a prefix replaces the head of the
suffix. -/
lemma set_append_cons (pre : List G) (a v : G) (suf : List G) {k : Nat}
    (hk : pre.length = k) :
    (pre ++ a :: suf).set k v = pre ++ v :: suf := by
  subst hk
  induction pre with
  | nil => rfl
  | cons x xs ih =>
    simp only [List.cons_append, List.length_cons, List.set_cons_succ]
    rw [ih]

/-- Writing `g i` at every index of a block of indices, over storage that is
pre-sized so those indices land exactly on the suffix, yields the map of `g`
over the block (this is the disjoint-slot write pattern of `Map`). -/
lemma foldl_set_range' (g : Nat → G) :
    ∀ (m k : Nat) (pre suf : List G), pre.length = k → suf.length = m →
    (List.range' k m).foldl (fun acc i => acc.set i (g i)) (pre ++ suf)
      = pre ++ (List.range' k m).map g := by
  intro m
  induction m with
  | zero =>
    intro k pre suf _ hs
    simp [List.length_eq_zero.mp hs]
  | succ m ih =>
    intro k pre suf hp hs
    cases suf with
    | nil => simp at hs
    | cons s0 suf' =>
      rw [List.range'_succ]
      simp only [List.foldl_cons, List.map_cons]
      rw [set_append_cons pre s0 (g k) suf' hp]
      have hsplit : pre ++ g k :: suf' = (pre ++ [g k]) ++ suf' := by simp
      rw [hsplit, ih (k + 1) (pre ++ [g k]) suf' (by simp [hp]) (by simpa using hs)]
      simp

/-- The mask-writing phase of `Filter`: conditionally setting `true` at each
index of a block, over a zero-initialised (`false`) suffix, records exactly
the predicate's value at each index. -/
lemma foldl_mask_range' [Inhabited T] (d : List T) (f : T → Bool) :
    ∀ (m k : Nat) (pre : List Bool), pre.length = k →
    (List.range' k m).foldl
      (fun acc i => if f (d.getD i default) then acc.set i true else acc)
      (pre ++ List.replicate m false)
      = pre ++ (List.range' k m).map (fun i => f (d.getD i default)) := by
  intro m
  induction m with
  | zero => intro k pre _; simp
  | succ m ih =>
    intro k pre hp
    rw [List.range'_succ, List.replicate_succ]
    simp only [List.foldl_cons, List.map_cons]
    have hstep :
        (if f (d.getD k default) then
            (pre ++ false :: List.replicate m false).set k true
          else pre ++ false :: List.replicate m false)
          = (pre ++ [f (d.getD k default)]) ++ List.replicate m false := by
      by_cases hf : f (d.getD k default) = true
      · rw [if_pos hf, set_append_cons pre false true (List.replicate m false) hp, hf]
        simp
      · have hf' : f (d.getD k default) = false := by simpa using hf
        rw [if_neg hf, hf']
        simp
    rw [hstep, ih (k + 1) (pre ++ [f (d.getD k default)]) (by simp [hp])]
    simp

/-- The single-threaded compaction pass of `Filter`: walking a block of
indices in order and appending the elements whose mask bit is set produces
the filter of the corresponding suffix of the data. -/
lemma foldl_compact_range' [Inhabited T] (d : List T) (f : T → Bool) (mask : Nat → Bool)
    (hm : ∀ i, i < d.length → mask i = f (d.getD i default)) :
    ∀ (m k : Nat) (acc : List T), k + m = d.length →
    (List.range' k m).foldl
      (fun acc i => if mask i then acc ++ [d.getD i default] else acc) acc
      = acc ++ (d.drop k).filter f := by
  intro m
  induction m with
  | zero =>
    intro k acc h
    have hk : k = d.length := by omega
    subst hk
    simp [List.drop_length]
  | succ m ih =>
    intro k acc h
    have hk : k < d.length := by omega
    have hgd : d.getD k default = d[k] := List.getD_eq_getElem d default hk
    rw [List.range'_succ]
    simp only [List.foldl_cons]
    rw [hm k hk, List.drop_eq_getElem_cons hk, List.filter_cons]
    by_cases hf : f d[k] = true
    · rw [hgd, if_pos hf, if_pos hf, ih (k + 1) (acc ++ [d[k]]) (by omega)]
      simp
    · rw [hgd, if_neg hf, if_neg hf, ih (k + 1) acc (by omega)]

/-- Reading every index of a list back in order reproduces the list. -/
lemma map_getD_range [Inhabited T] (d : List T) :
    (List.range d.length).map (fun i => d.getD i default) = d := by
  apply List.ext_getElem
  · simp
  · intro i h1 h2
    simp only [List.getElem_map, List.getElem_range]
    exact List.getD_eq_getElem d default h2

/-- The `All` worker loop over a list of job indices is the conjunction of
the predicate over the corresponding elements. -/
lemma allJobs_eq_all [Inhabited T] (d : List T) (f : T → Bool) (is : List Nat) :
    allJobs d f is = is.all (fun i => f (d.getD i default)) := by
  induction is with
  | nil => rfl
  | cons i rest ih =>
    rw [allJobs, List.all_cons]
    cases hf : f (d.getD i default) with
    | false => simp
    | true => simpa using ih

/-- The `Any` worker loop over a list of job indices is the disjunction of
the predicate over the corresponding elements. -/
lemma anyJobs_eq_any [Inhabited T] (d : List T) (f : T → Bool) (is : List Nat) :
    anyJobs d f is = is.any (fun i => f (d.getD i default)) := by
  induction is with
  | nil => rfl
  | cons i rest ih =>
    rw [anyJobs, List.any_cons]
    cases hf : f (d.getD i default) with
    | false => simpa using ih
    | true => simp

/-- Quantifying the predicate over all indices of `d` is quantifying it over
the elements of `d`. -/
lemma all_range_getD [Inhabited T] (d : List T) (f : T → Bool) :
    (List.range d.length).all (fun i => f (d.getD i default)) = d.all f := by
  rw [Bool.eq_iff_iff]
  simp only [List.all_eq_true, List.mem_range]
  constructor
  · intro h x hx
    obtain ⟨i, hi, rfl⟩ := List.mem_iff_getElem.mp hx
    have := h i hi
    rwa [List.getD_eq_getElem d default hi] at this
  · intro h i hi
    rw [List.getD_eq_getElem d default hi]
    exact h _ (List.getElem_mem hi)

/-- Existentially quantifying the predicate over all indices of `d` is
quantifying it over the elements of `d`. -/
lemma any_range_getD [Inhabited T] (d : List T) (f : T → Bool) :
    (List.range d.length).any (fun i => f (d.getD i default)) = d.any f := by
  rw [Bool.eq_iff_iff]
  simp only [List.any_eq_true, List.mem_range]
  constructor
  · rintro ⟨i, hi, hfi⟩
    refine ⟨d[i], List.getElem_mem hi, ?_⟩
    rwa [List.getD_eq_getElem d default hi] at hfi
  · rintro ⟨x, hx, hfx⟩
    obtain ⟨i, hi, rfl⟩ := List.mem_iff_getElem.mp hx
    refine ⟨i, hi, ?_⟩
    rwa [List.getD_eq_getElem d default hi]

/-- `All` computes the conjunction of the predicate over the slice. -/
lemma All_eq_all [Inhabited T] (d : List T) (w : Nat) (f : T → Bool) :
    (AsyncSlice.mk d w).All f = d.all f := by
  unfold AsyncSlice.All
  by_cases h : d.length = 0
  · rw [List.length_eq_zero.mp h]
    rfl
  · simp only [if_neg h]
    rw [allJobs_eq_all]
    exact all_range_getD d f

/-- `Any` computes the disjunction of the predicate over the slice. -/
lemma Any_eq_any [Inhabited T] (d : List T) (w : Nat) (f : T → Bool) :
    (AsyncSlice.mk d w).Any f = d.any f := by
  unfold AsyncSlice.Any
  by_cases h : d.length = 0
  · rw [List.length_eq_zero.mp h]
    rfl
  · simp only [if_neg h]
    rw [anyJobs_eq_any]
    exact any_range_getD d f

/-- `Map` computes the elementwise map of `f` over the slice. -/
lemma Map_eq_map [Inhabited T] [Inhabited G] (d : List T) (w : Nat) (f : T → G) :
    (AsyncSlice.mk d w).Map f = d.map f := by
  unfold AsyncSlice.Map
  simp only [List.range_eq_range']
  have h := foldl_set_range' (fun i => f (d.getD i default)) d.length 0 []
    (List.replicate d.length (default : G)) rfl (List.length_replicate _ _)
  simp only [List.nil_append] at h
  rw [h, ← List.range_eq_range']
  have hcomp :
      (List.range d.length).map (fun i => f (d.getD i default))
        = ((List.range d.length).map (fun i => d.getD i default)).map f := by
    rw [List.map_map]
    rfl
  rw [hcomp, map_getD_range]

/-- `Filter` computes the elementwise filter of `f` over the slice. -/
lemma Filter_eq_filter [Inhabited T] (d : List T) (w : Nat) (f : T → Bool) :
    (AsyncSlice.mk d w).Filter f = d.filter f := by
  unfold AsyncSlice.Filter
  simp only [List.range_eq_range']
  have hmask := foldl_mask_range' d f d.length 0 [] rfl
  simp only [List.nil_append] at hmask
  rw [hmask]
  have hcomp := foldl_compact_range' d f
    (fun i => ((List.range' 0 d.length).map (fun i => f (d.getD i default))).getD i false)
    ?hm d.length 0 [] (by omega)
  · rw [hcomp]
    simp
  · intro i hi
    have hlen : i < ((List.range' 0 d.length).map (fun i => f (d.getD i default))).length := by
      simpa using hi
    show ((List.range' 0 d.length).map (fun i => f (d.getD i default))).getD i false
      = f (d.getD i default)
    rw [List.getD_eq_getElem _ _ hlen]
    simp [List.getElem_range']

/-- `Each`'s invocation trace is the slice itself, in dispatch order. -/
lemma Each_eq_data [Inhabited T] (d : List T) (w : Nat) :
    (AsyncSlice.mk d w).Each = d := by
  unfold AsyncSlice.Each
  exact map_getD_range d

/-- One `Reduce` round sends a working state of length `m` to one of length
`⌈m/2⌉ = (m+1)/2`: `⌊m/2⌋` pair results plus the carried leftover when `m`
is odd. -/
lemma reduceRound_length [Inhabited T] (w : Nat) (f : T → T → T) (state : List T) :
    (reduceRound w f state).length = (state.length + 1) / 2 := by
  simp only [reduceRound]
  by_cases h : state.length % 2 = 1
  · simp only [if_pos h, List.length_append, List.length_map, List.length_range,
      List.length_cons, List.length_nil]
    omega
  · simp only [if_neg h, List.length_map, List.length_range]
    omega

/-- With fuel at least the state length, the `Reduce` round loop reaches a
state of length exactly 1 from any non-empty state. -/
lemma reduceLoop_length_one [Inhabited T] (w : Nat) (f : T → T → T) :
    ∀ (fuel : Nat) (state : List T), 1 ≤ state.length → state.length ≤ fuel →
    (reduceLoop w f fuel state).length = 1 := by
  intro fuel
  induction fuel with
  | zero => intro state h1 h2; omega
  | succ n ih =>
    intro state h1 h2
    rw [reduceLoop]
    by_cases h : state.length > 1
    · rw [if_pos h]
      have hr1 : 1 ≤ (reduceRound w f state).length := by
        rw [reduceRound_length]; omega
      have hr2 : (reduceRound w f state).length ≤ n := by
        rw [reduceRound_length]; omega
      exact ih _ hr1 hr2
    · rw [if_neg h]
      omega

/-! ### Claims -/

/-- Claim C1: for every collection, every pure predicate and every worker
count, `All f` returns true iff `f` holds of every element, and `Any f`
returns true iff `f` holds of some element.  The worker count `w` is
universally quantified and the returned boolean does not depend on it. -/
theorem C1_all_any_correct [Inhabited T] (d : List T) (w : Nat) (f : T → Bool) :
    ((AsyncSlice.mk d w).All f = true ↔ ∀ x ∈ d, f x = true) ∧
    ((AsyncSlice.mk d w).Any f = true ↔ ∃ x ∈ d, f x = true) := by
  rw [All_eq_all, Any_eq_any]
  exact ⟨List.all_eq_true, List.any_eq_true⟩

/-- Claim C2: for every collection `d`, transform `f` and worker count `w`,
`Map` preserves length and sends the element at every index `i` to
`f (d[i])`. -/
theorem C2_map_length_pointwise [Inhabited T] [Inhabited G] (d : List T) (w : Nat)
    (f : T → G) :
    ((AsyncSlice.mk d w).Map f).length = d.length ∧
    ∀ i, i < d.length →
      ((AsyncSlice.mk d w).Map f).getD i default = f (d.getD i default) := by
  rw [Map_eq_map]
  refine ⟨List.length_map d f, ?_⟩
  intro i hi
  have hlen : i < (d.map f).length := by simpa using hi
  rw [List.getD_eq_getElem _ _ hlen, List.getElem_map, List.getD_eq_getElem d default hi]

/-- Witness for C2 at the concrete input `[1,2,3]` with two workers,
transform doubling, index 1. -/
theorem C2_map_length_pointwise_witness :
    ((AsyncSlice.mk [1, 2, 3] 2).Map (fun x => x * 2)).getD 1 default
      = (fun x => x * 2) (([1, 2, 3] : List Nat).getD 1 default) :=
  (C2_map_length_pointwise [1, 2, 3] 2 (fun x => x * 2)).2 1 (by decide)

/-- Claim C3: for every collection, predicate and worker count, `Filter`
returns exactly the elements satisfying the predicate, in their original
relative order — that is, it equals the sequential `List.filter`. -/
theorem C3_filter_order_exact [Inhabited T] (d : List T) (w : Nat) (f : T → Bool) :
    (AsyncSlice.mk d w).Filter f = d.filter f :=
  Filter_eq_filter d w f

/-- Claim C4 is violated by the code: on the single-element slice `[5]` with
combine `(a, b) ↦ a * b`, `Reduce` does not return `5` unchanged.  The
initial working state is `[0, 5]` (the `make([]T, len)` + `append` slip
prefixes a zero value), so one round runs, the combine function is invoked
once on `(0, 5)`, and the result is `0`. -/
theorem C4_single_element_reduce :
    (AsyncSlice.mk [(5 : Nat)] 1).Reduce (fun a b => a * b) = 0 := by decide

/-- Claim C5 is violated by the code: for `[1,2,3,4,5]` with addition the
final value is indeed `15` (only because `0` is the identity of `+`), but the
initial working state is `[0,0,0,0,0,1,2,3,4,5]`, so round 1 produces
`[0,0,1,5,9]`, not the claimed `[3,7,5]`. -/
theorem C5_reduce_rounds :
    (AsyncSlice.mk [(1 : Nat), 2, 3, 4, 5] 1).Reduce (fun a b => a + b) = 15 ∧
    reduceRound 1 (fun a b => a + b) (List.replicate 5 (0 : Nat) ++ [1, 2, 3, 4, 5])
      = [0, 0, 1, 5, 9] :=
  ⟨by decide, by decide⟩

/-- Claim C6: on the empty collection, for every worker count, `All` returns
`true`, `Any` returns `false` and `Reduce` returns the element type's zero
value (`default`); each returns through its early empty-case branch, before
any dispatch. -/
theorem C6_empty_defaults [Inhabited T] (w : Nat) (f : T → Bool) (g : T → T → T) :
    (AsyncSlice.mk ([] : List T) w).All f = true ∧
    (AsyncSlice.mk ([] : List T) w).Any f = false ∧
    (AsyncSlice.mk ([] : List T) w).Reduce g = default :=
  ⟨rfl, rfl, rfl⟩

/-- Claim C7: every `Reduce` round sends a working state of length `m > 1`
to one of length `⌈m/2⌉ = (m+1)/2`, which is strictly smaller, and the round
loop (here with its fuel, which the state length bounds) repeats until the
working state has length exactly 1. -/
theorem C7_reduce_rounds_halve [Inhabited T] (w : Nat) (f : T → T → T)
    (state : List T) (h : 1 < state.length) :
    (reduceRound w f state).length = (state.length + 1) / 2 ∧
    (reduceRound w f state).length < state.length ∧
    (reduceLoop w f state.length state).length = 1 := by
  refine ⟨reduceRound_length w f state, ?_, ?_⟩
  · rw [reduceRound_length]
    omega
  · exact reduceLoop_length_one w f state.length state (by omega) (le_refl _)

/-- Witness for C7 at the concrete state `[1,2,3,4,5]` with two workers and
addition. -/
theorem C7_reduce_rounds_halve_witness :
    (reduceLoop 2 (fun a b => a + b) ([1, 2, 3, 4, 5] : List Nat).length
      [1, 2, 3, 4, 5]).length = 1 :=
  (C7_reduce_rounds_halve 2 (fun a b => a + b) [1, 2, 3, 4, 5] (by decide)).2.2

/-- The clamp expression itself behaves as the spec describes when applied to
a positive bound `n`: `0` and values above `n` go to `n`, in-range values are
kept.  `All`, `Any`, `Each`, `Filter` and `Map` apply it with `n` the
collection length; `Reduce` however applies it to the length of its (buggy)
working state — see `C8_reduce_pool_oversized`. -/
lemma clampWorkers_spec (n w : Nat) (h : 0 < n) :
    (1 ≤ clampWorkers w n ∧ clampWorkers w n ≤ n) ∧
    ((w = 0 ∨ n < w) → clampWorkers w n = n) ∧
    (1 ≤ w → w ≤ n → clampWorkers w n = w) := by
  have hcases : clampWorkers w n = if w = 0 ∨ n < w then n else w := by
    by_cases h1 : w = 0 <;> by_cases h2 : n < w <;> simp [clampWorkers, h1, h2]
  rw [hcases]
  by_cases h1 : w = 0 ∨ n < w
  · rw [if_pos h1]
    omega
  · rw [if_neg h1]
    omega

/-- Claim C8 is violated by the code: `Reduce` computes its pool size by
clamping against the current working state's length (source lines 268-271),
and the `make([]T, len)` + `append` slip makes round 1's state length `2n`.
For the non-empty collection `[1,2,3,4,5]` (`n = 5`), the configured value
`0` yields a pool of `10` workers instead of `n = 5`, and the out-of-range
value `7` is used as given instead of being clamped to `5` — both effective
pool sizes fall outside `[1, n] = [1, 5]`.  The other five operations clamp
against the collection length and do satisfy the claim
(`clampWorkers_spec`). -/
theorem C8_reduce_pool_oversized :
    reducePoolSize (AsyncSlice.mk [(1 : Nat), 2, 3, 4, 5] 0) = 10 ∧
    reducePoolSize (AsyncSlice.mk [(1 : Nat), 2, 3, 4, 5] 7) = 7 :=
  ⟨by decide, by decide⟩

/-- Claim C9: for a non-empty collection and any worker count `w ∈ [1, n]`,
`Map`, `Filter` and `Each` produce the same observable result as with one
worker and as with `n` workers (for `Each`, the observable result is its
invocation trace). -/
theorem C9_worker_count_independent [Inhabited T] [Inhabited G] (d : List T)
    (f : T → G) (p : T → Bool) (w : Nat) (h1 : 1 ≤ w) (h2 : w ≤ d.length) :
    ((AsyncSlice.mk d w).Map f = (AsyncSlice.mk d 1).Map f ∧
      (AsyncSlice.mk d w).Map f = (AsyncSlice.mk d d.length).Map f) ∧
    ((AsyncSlice.mk d w).Filter p = (AsyncSlice.mk d 1).Filter p ∧
      (AsyncSlice.mk d w).Filter p = (AsyncSlice.mk d d.length).Filter p) ∧
    ((AsyncSlice.mk d w).Each = (AsyncSlice.mk d 1).Each ∧
      (AsyncSlice.mk d w).Each = (AsyncSlice.mk d d.length).Each) :=
  ⟨⟨(Map_eq_map d w f).trans (Map_eq_map d 1 f).symm,
      (Map_eq_map d w f).trans (Map_eq_map d d.length f).symm⟩,
    ⟨(Filter_eq_filter d w p).trans (Filter_eq_filter d 1 p).symm,
      (Filter_eq_filter d w p).trans (Filter_eq_filter d d.length p).symm⟩,
    ⟨(Each_eq_data d w).trans (Each_eq_data d 1).symm,
      (Each_eq_data d w).trans (Each_eq_data d d.length).symm⟩⟩

/-- Witness for C9 at the concrete collection `[1,2,3]` with `w = 2`. -/
theorem C9_worker_count_independent_witness :
    (AsyncSlice.mk [1, 2, 3] 2).Map (fun x => x * 2)
      = (AsyncSlice.mk [1, 2, 3] 1).Map (fun x => x * 2) :=
  (C9_worker_count_independent [(1 : Nat), 2, 3] (fun x => x * 2)
    (fun x => decide (1 < x)) 2 (by decide) (by decide)).1.1

/-- Claim C10: for every collection, pure predicate and worker count, `All f`
equals the negation of `Any (fun x => !(f x))`; at the empty collection this
specialises to the defaults `true` and `false` being complements. -/
theorem C10_all_eq_not_any_not [Inhabited T] (d : List T) (w : Nat) (f : T → Bool) :
    (AsyncSlice.mk d w).All f = !((AsyncSlice.mk d w).Any (fun x => !(f x))) := by
  rw [All_eq_all, Any_eq_any]
  induction d with
  | nil => rfl
  | cons x xs ih =>
    simp only [List.all_cons, List.any_cons, Bool.not_or, Bool.not_not, ih]

end Genesis
